import Mathlib

/-!
Verification of the enb build engine's per-node target state machine
("lib/node.js", given here as src/unnamed/part_000), the file-list helper
(src/lib/file-list.js) and the cache-recording discipline of the two
technology build routines in src/techs/bemdecl-merge.js.

The JavaScript source is shallowly embedded: the mutable per-node state
(target registry, technology `__started` flags, logger output) becomes an
explicit `Node` record threaded through the operations, a Vow deferred
becomes the three-state `DefState` (settling is idempotent, exactly as in
Vow), and a synchronous JavaScript `throw` becomes an `Except.error`.
Invocations of a technology's `build()` routine are recorded in the
`buildCalls` trace so that "invoked exactly once" is a statement about an
observable event list.
-/

/-- State of a Vow deferred: pending, resolved with a value, or rejected
with an error.  Values and errors are kept as opaque strings. -/
inductive DefState where
  | pending
  | resolved (value : String)
  | rejected (error : String)
deriving DecidableEq, Repr

/-- `deferred.resolve(value)` in Vow: settling is a no-op once settled. -/
def DefState.resolve (d : DefState) (v : String) : DefState :=
  match d with
  | DefState.pending => DefState.resolved v
  | other => other

/-- `deferred.reject(error)` in Vow: settling is a no-op once settled. -/
def DefState.reject (d : DefState) (e : String) : DefState :=
  match d with
  | DefState.pending => DefState.rejected e
  | other => other

/-- Outcome of a technology's `build()` call at the moment of invocation:
it either returns normally (a value or a promise) or throws a synchronous
exception carrying an error message. -/
inductive BuildResult where
  | ok
  | throws (err : String)
deriving DecidableEq, Repr

/-- One entry of the node's target registry `_targetNames`:
`{ tech, started, isValid, deferred }` as in the source.  `tech` is the
index of the owning technology in the node's `_techs` list (`none` while
no technology is bound). -/
structure Target where
  tech : Option Nat
  started : Bool
  isValid : Bool
  deferred : DefState
deriving DecidableEq, Repr

/-- A registered technology: its `getName()`, its `getTargets()` list, the
behaviour of its `build()` routine at invocation time, and the mutable
`__started` flag the node sets on it. -/
structure Tech where
  name : String
  targets : List String
  buildResult : BuildResult
  started : Bool
deriving DecidableEq, Repr

/-- Events emitted through the node's logger: `logAction('rebuild', ...)`,
`logger.isValid(...)` and `logErrorAction('failed', ...)`.  The second
component is `targetObj.tech && targetObj.tech.getName()`. -/
inductive LogEvent where
  | rebuild (target : String) (techName : Option String)
  | isValid (target : String) (techName : Option String)
  | failed (target : String) (techName : Option String)
deriving DecidableEq, Repr

/-- The per-node state of the Node class: `_path`, `_targetName` (the
directory base name used for `?`-unmasking), `_techs`, the insertion
ordered registry `_targetNames` (a JavaScript object preserves string-key
insertion order, which `Object.keys` reproduces), the default target
lists, whether `_registerTargets` has already run (the source replaces the
method by a no-op after the first run), the logger output, and the trace
of technology `build()` invocations. -/
structure Node where
  path : String
  targetName : String
  techs : List Tech
  targetNames : List (String × Target)
  targetNamesToBuild : List String
  targetNamesToClean : List String
  registered : Bool
  log : List LogEvent
  buildCalls : List Nat
deriving DecidableEq, Repr

/-- Lookup in the insertion-ordered target registry. -/
def lookupA : List (String × Target) → String → Option Target
  | [], _ => none
  | (k, v) :: rest, name => if k = name then some v else lookupA rest name

/-- In-place mutation of the registry entry found for `name` (the source
mutates the object returned by `_getTarget`; keys are unique because
entries are only ever created through the lookup-or-create path). -/
def updateA : List (String × Target) → String → (Target → Target) → List (String × Target)
  | [], _, _ => []
  | (k, v) :: rest, name, f =>
      if k = name then (k, f v) :: rest else (k, v) :: updateA rest name f

/-- The fresh registry entry `{ started: false, deferred: Vow.defer() }`
created by `_getTarget`: no bound tech, not started, not valid, pending. -/
def freshTarget : Target :=
  { tech := none, started := false, isValid := false, deferred := DefState.pending }

/-- `_getTarget(name)`: return the registry entry for `name`, creating a
fresh one (appended, preserving key insertion order) when absent. -/
def Node._getTarget (n : Node) (name : String) : Node × Target :=
  match lookupA n.targetNames name with
  | some t => (n, t)
  | none => ({ n with targetNames := n.targetNames ++ [(name, freshTarget)] }, freshTarget)

/-- Mutate the registry entry for `name` through `f`. -/
def setTargetProp (n : Node) (name : String) (f : Target → Target) : Node :=
  { n with targetNames := updateA n.targetNames name f }

/-- Modify the element at index `i` of a list, if present. -/
def modifyIdx {α : Type} : List α → Nat → (α → α) → List α
  | [], _, _ => []
  | x :: xs, 0, f => f x :: xs
  | x :: xs, Nat.succ i, f => x :: modifyIdx xs i f

/-- Set the `__started` flag on technology `i` of the node. -/
def Node.setTechStarted (n : Node) (i : Nat) : Node :=
  { n with techs := modifyIdx n.techs i (fun t => { t with started := true }) }

/-- `targetObj.tech.__started` for tech index `i`.  API-created targets
only ever hold valid indices; a dangling index defaults to `true` (never
invoke). -/
def Node.techStartedAt (n : Node) (i : Nat) : Bool :=
  ((n.techs[i]?).map Tech.started).getD true

/-- Behaviour of `targetObj.tech.build()` for tech index `i`. -/
def Node.buildResultAt (n : Node) (i : Nat) : BuildResult :=
  ((n.techs[i]?).map Tech.buildResult).getD BuildResult.ok

/-- `tech.getName()` for tech index `i`. -/
def Node.techNameAt (n : Node) (i : Nat) : String :=
  ((n.techs[i]?).map Tech.name).getD ""

/-- `targetObj.tech && targetObj.tech.getName()`. -/
def Node.techNameOfTarget (n : Node) (t : Target) : Option String :=
  t.tech.bind (fun i => (n.techs[i]?).map Tech.name)

/-- `targetName.replace(/\?/g, this._targetName)`: every `?` character is
replaced by the node's base name. -/
def replaceQ (base : String) (t : String) : String :=
  String.mk (t.data.foldr (fun c acc => if c = '?' then base.data ++ acc else c :: acc) [])

/-- `unmaskTargetName(targetName)`. -/
def Node.unmaskTargetName (n : Node) (t : String) : String :=
  replaceQ n.targetName t

/-- `path.join(a, b)` restricted to the plain segments the node produces
(no `..` or `.` normalisation is ever needed for them). -/
def pathJoin (a b : String) : String :=
  if a = "" then b else if b = "" then a else a ++ "/" ++ b

/-- The message of the `TargetNotFoundEror` raised by `requireSources`:
`'There is no tech for target ' + path.join(this._path, source + '.')`. -/
def targetNotFoundMessage (nodePath source : String) : String :=
  "There is no tech for target " ++ pathJoin nodePath (source ++ ".")

/-- `resolveTarget(target, value)`: fetch (or lazily create) the entry,
log a `rebuild` action unless the target was marked valid, and resolve
the deferred (idempotently).  The profiler is absent (`null`) here. -/
def Node.resolveTarget (n : Node) (target : String) (value : String) : Node :=
  match n._getTarget target with
  | (n1, targetObj) =>
    let n2 :=
      if targetObj.isValid then n1
      else { n1 with log := n1.log ++ [LogEvent.rebuild target (n1.techNameOfTarget targetObj)] }
    setTargetProp n2 target (fun t => { t with deferred := t.deferred.resolve value })

/-- `isValidTarget(target)`: log that the target did not need a rebuild
and set its `isValid` flag. -/
def Node.isValidTarget (n : Node) (target : String) : Node :=
  match n._getTarget target with
  | (n1, targetObj) =>
    let n2 := { n1 with log := n1.log ++ [LogEvent.isValid target (n1.techNameOfTarget targetObj)] }
    setTargetProp n2 target (fun t => { t with isValid := true })

/-- `rejectTarget(target, err)`: fetch (or lazily create) the entry, log a
`failed` action and reject the deferred (idempotently). -/
def Node.rejectTarget (n : Node) (target : String) (err : String) : Node :=
  match n._getTarget target with
  | (n1, targetObj) =>
    let n2 := { n1 with log := n1.log ++ [LogEvent.failed target (n1.techNameOfTarget targetObj)] }
    setTargetProp n2 target (fun t => { t with deferred := t.deferred.reject err })

/-- The `Error` message thrown by `_registerTarget` on a second binding. -/
def conflictMessage (target oldTech newTech : String) : String :=
  "Concurrent techs for target: " ++ target ++ ", techs: \"" ++ oldTech ++
    "\" vs \"" ++ newTech ++ "\""

/-- `_registerTarget(target, tech)`: bind tech `i` to the (lazily created)
target entry; throw the configuration error when a technology is already
bound. -/
def Node._registerTarget (n : Node) (target : String) (i : Nat) : Except String Node :=
  match n._getTarget target with
  | (n1, targetObj) =>
    match targetObj.tech with
    | some j =>
        Except.error (conflictMessage target (n1.techNameAt j) (n1.techNameAt i))
    | none => Except.ok (setTargetProp n1 target (fun t => { t with tech := some i }))

/-- The inner loop of `_registerTargets`: register every declared target
of technology `i`. -/
def registerTechTargets (n : Node) (i : Nat) : List String → Except String Node
  | [] => Except.ok n
  | t :: rest =>
      match n._registerTarget t i with
      | Except.error e => Except.error e
      | Except.ok n1 => registerTechTargets n1 i rest

/-- The outer loop of `_registerTargets` over the indexed technologies. -/
def registerAll (n : Node) : List (Nat × Tech) → Except String Node
  | [] => Except.ok n
  | (i, tech) :: rest =>
      match registerTechTargets n i tech.targets with
      | Except.error e => Except.error e
      | Except.ok n1 => registerAll n1 rest

/-- `_registerTargets()`: register every tech's declared targets once; the
source replaces the method by a no-op after a successful run (modelled by
the `registered` flag, which stays unset when a registration throws). -/
def Node._registerTargets (n : Node) : Except String Node :=
  if n.registered then Except.ok n
  else
    match registerAll n n.techs.enum with
    | Except.error e => Except.error e
    | Except.ok n1 => Except.ok { n1 with registered := true }

/-- What one element of the `Vow.all` array in `requireSources` is: either
the promise of the named target entry (the same deferred for every
caller), or a fresh promise rejected with a target-not-found error. -/
inductive Outcome where
  | targetPromise (name : String)
  | rejectedNotFound (message : String)
deriving DecidableEq, Repr

/-- The body of the `sources.map` callback in `requireSources`, for one
requested name: unmask, fetch-or-create the entry, reject when no tech is
bound, otherwise start the target (and the owning technology's `build()`,
at most once, guarded by both `started` flags); a synchronous exception
from `build()` is caught and turned into `rejectTarget`.  Each `build()`
invocation is appended to the node's `buildCalls` trace. -/
def Node._requireSource (n0 : Node) (src : String) : Node × Outcome :=
  let source := n0.unmaskTargetName src
  match n0._getTarget source with
  | (n, targetObj) =>
    match targetObj.tech with
    | none => (n, Outcome.rejectedNotFound (targetNotFoundMessage n.path source))
    | some i =>
        if targetObj.started then (n, Outcome.targetPromise source)
        else
          let n1 := setTargetProp n source (fun t => { t with started := true })
          if n1.techStartedAt i then (n1, Outcome.targetPromise source)
          else
            let n2 := n1.setTechStarted i
            let n3 := { n2 with buildCalls := n2.buildCalls ++ [i] }
            match n3.buildResultAt i with
            | BuildResult.throws err => (n3.rejectTarget source err, Outcome.targetPromise source)
            | BuildResult.ok => (n3, Outcome.targetPromise source)

/-- Sequential elaboration of `sources.map(...)` (the callbacks run
synchronously, in order, inside `Vow.all`). -/
def requireList (n : Node) : List String → Node × List Outcome
  | [] => (n, [])
  | s :: rest =>
      match n._requireSource s with
      | (n1, o) =>
        match requireList n1 rest with
        | (n2, os) => (n2, o :: os)

/-- `requireSources(sources)`: run `_registerTargets()` (which may throw a
configuration error), then process each source.  The returned list stands
for the array of per-source promises handed to `Vow.all`. -/
def Node.requireSources (n : Node) (sources : List String) : Except String (Node × List Outcome) :=
  match n._registerTargets with
  | Except.error e => Except.error e
  | Except.ok nr => Except.ok (requireList nr sources)

/-- `k + 1` successive calls of `requireSources` with the same source
list, returning the last call's result. -/
def requireSourcesRepeat (n : Node) (sources : List String) : Nat → Except String (Node × List Outcome)
  | 0 => n.requireSources sources
  | Nat.succ k =>
      match n.requireSources sources with
      | Except.error e => Except.error e
      | Except.ok (n1, _) => requireSourcesRepeat n1 sources k

/-- `Object.keys(this._targetNames)`: the registry keys in insertion
order. -/
def registeredTargetNames (n : Node) : List String :=
  n.targetNames.map Prod.fst

/-- `_expandTargets(targets, defaultTargetList)`: replace each `'*'` by
the default target list, or by every currently-registered target name
when that default list is empty, and flatten.  (The callers always pass
an array for `defaultTargetList`, so the JavaScript truthiness test
reduces to the emptiness test.) -/
def Node._expandTargets (n : Node) (targets defaultTargetList : List String) : List String :=
  let allTargets :=
    if defaultTargetList.isEmpty then registeredTargetNames n else defaultTargetList
  (targets.map (fun targetName => if targetName = "*" then allTargets else [targetName])).flatten

/-- lodash `uniq`: keep the first occurrence of each element, scanning
left to right with the set of elements already seen. -/
def uniqAux (seen : List String) : List String → List String
  | [] => []
  | x :: xs => if seen.contains x then uniqAux seen xs else x :: uniqAux (x :: seen) xs

/-- lodash `uniq`. -/
def uniq (l : List String) : List String := uniqAux [] l

/-- `_resolveTargets(targets, defaultTargetList)`: expand when a target
list was passed (a JavaScript-falsy `targets` argument selects the node's
build default list), then deduplicate with `uniq`. -/
def Node._resolveTargets (n : Node) (targets : Option (List String)) (defaultTargetList : List String) : List String :=
  uniq (match targets with
        | some ts => n._expandTargets ts defaultTargetList
        | none => n.targetNamesToBuild)

/-- `build(targets)`: resolve the requested names against the build
default list, require them, and produce `{ builtTargets }` — the resolved
names qualified by the node path — once all of them settle. -/
def Node.build (n : Node) (targets : Option (List String)) : Except String (Node × List Outcome × List String) :=
  let targetsToBuild := n._resolveTargets targets n.targetNamesToBuild
  match n.requireSources targetsToBuild with
  | Except.error e => Except.error e
  | Except.ok (n1, outs) =>
      Except.ok (n1, outs, targetsToBuild.map (fun target => pathJoin n.path target))

/-- Whether an element of the `Vow.all` array has settled successfully in
the given node state. -/
def Outcome.succeeded (n : Node) : Outcome → Bool
  | Outcome.targetPromise t =>
      match lookupA n.targetNames t with
      | some tgt =>
          match tgt.deferred with
          | DefState.resolved _ => true
          | _ => false
      | none => false
  | Outcome.rejectedNotFound _ => false

/-- The technology bound to target `t`, through the code's own
`_getTarget` accessor (`none` both for an absent entry and for an entry
no technology has claimed). -/
def boundTech (n : Node) (t : String) : Option Nat :=
  ((n._getTarget t).2).tech

/-- A file record handled by FileList:
`{ fullname, name, suffix, mtime }`. -/
structure FileInfo where
  name : String
  fullname : String
  suffix : String
  mtime : Nat
deriving DecidableEq, Repr

/-- The FileList state: the flat `items` array, the `slices` array of
added batches, and the `bySuffix` map (a JavaScript object, keyed by
suffix in first-insertion order, each key holding the files pushed for
that suffix in arrival order). -/
structure FileList where
  items : List FileInfo
  slices : List (List FileInfo)
  bySuffix : List (String × List FileInfo)
deriving DecidableEq, Repr

/-- `new FileList()`. -/
def emptyFileList : FileList :=
  { items := [], slices := [], bySuffix := [] }

/-- `(this.bySuffix[file.suffix] || (this.bySuffix[file.suffix] = [])).push(file)`. -/
def bySuffixAdd : List (String × List FileInfo) → FileInfo → List (String × List FileInfo)
  | [], f => [(f.suffix, [f])]
  | (s, fs) :: rest, f =>
      if s = f.suffix then (s, fs ++ [f]) :: rest else (s, fs) :: bySuffixAdd rest f

/-- `addFiles(files)`: push the batch onto `slices` and each file onto
`items` and its suffix bucket. -/
def FileList.addFiles (fl : FileList) (files : List FileInfo) : FileList :=
  { slices := fl.slices ++ [files]
    items := fl.items ++ files
    bySuffix := files.foldl bySuffixAdd fl.bySuffix }

/-- `this.bySuffix[suffix] || []`. -/
def bySuffixGet : List (String × List FileInfo) → String → List FileInfo
  | [], _ => []
  | (s, fs) :: rest, q => if s = q then fs else bySuffixGet rest q

/-- The `string | string[]` argument of `getBySuffix`. -/
inductive SuffixArg where
  | str (s : String)
  | arr (ss : List String)
deriving DecidableEq, Repr

/-- `getBySuffix(suffix)`: a one-element array is unwrapped to its single
string first; an array argument is answered by scanning the slices in
order and keeping the files whose suffix is in the set; a string argument
is answered from the `bySuffix` bucket. -/
def FileList.getBySuffix (fl : FileList) (arg : SuffixArg) : List FileInfo :=
  let arg1 :=
    match arg with
    | SuffixArg.arr [s] => SuffixArg.str s
    | other => other
  match arg1 with
  | SuffixArg.str s => bySuffixGet fl.bySuffix s
  | SuffixArg.arr ss =>
      fl.slices.foldl (fun res slice => res ++ slice.filter (fun f => ss.contains f.suffix)) []

/-- `FileList` built by a sequence of `addFiles` batches. -/
def mkFileList (batches : List (List FileInfo)) : FileList :=
  batches.foldl FileList.addFiles emptyFileList

/-- Observable steps of a technology's `build()` routine: the initial
`requireSources`, a write of the output file (with its success), a
`cacheFileInfo`/`cacheFileList` record, resolving the target, and the
`isValidTarget` cache-hit notification. -/
inductive TechAction where
  | require (sources : List String)
  | write (path : String) (ok : Bool)
  | cacheRecord (key : String)
  | cacheRecordList (key : String)
  | resolveT (target : String)
  | validT (target : String)
deriving DecidableEq, Repr

/-- The step trace of the bemdecl-merge `build()` routine
(src/techs/bemdecl-merge.js, first module): require the sources; rebuild
when the cached target metadata or any cached source metadata is stale;
on a rebuild, write the merged file and only inside the write's `.then`
callback record the target's and the sources' cache metadata and resolve;
a failed write skips that callback entirely; on a cache hit, mark the
target valid and resolve from the file on disk. -/
def bemdeclMergeBuildTrace (needsMain : Bool) (needsSrc : String → Bool) (writeOk : Bool)
    (target : String) (sources : List String) : List TechAction :=
  let rebuildNeeded := needsMain || sources.any needsSrc
  TechAction.require sources ::
    (if rebuildNeeded then
      if writeOk then
        TechAction.write target true :: TechAction.cacheRecord "bemdecl-file" ::
          (sources.map TechAction.cacheRecord ++ [TechAction.resolveT target])
      else [TechAction.write target false]
    else [TechAction.validT target, TechAction.resolveT target])

/-- The step trace of the deps `build()` routine (second module of
src/techs/bemdecl-merge.js): rebuild when any of the three cache checks
is stale; on a rebuild, write the deps file and only inside the write's
`.then` callback record the three cache entries and resolve; on a cache
hit, mark valid and resolve from disk. -/
def depsBuildTrace (needsDeps needsBemdecl needsFileList writeOk : Bool)
    (levelsTarget bemdeclSource target : String) : List TechAction :=
  TechAction.require [levelsTarget, bemdeclSource] ::
    (if needsDeps || needsBemdecl || needsFileList then
      if writeOk then
        [TechAction.write target true, TechAction.cacheRecord "deps-file",
         TechAction.cacheRecord "bemdecl-file", TechAction.cacheRecordList "deps-file-list",
         TechAction.resolveT target]
      else [TechAction.write target false]
    else [TechAction.validT target, TechAction.resolveT target])

/-- Scan a trace with the flag "a successful write has already happened";
every cache-record step must find the flag set. -/
def noRecordBeforeWrite : Bool → List TechAction → Bool
  | _, [] => true
  | w, TechAction.write _ ok :: rest => noRecordBeforeWrite (w || ok) rest
  | w, TechAction.cacheRecord _ :: rest => w && noRecordBeforeWrite w rest
  | w, TechAction.cacheRecordList _ :: rest => w && noRecordBeforeWrite w rest
  | w, TechAction.require _ :: rest => noRecordBeforeWrite w rest
  | w, TechAction.resolveT _ :: rest => noRecordBeforeWrite w rest
  | w, TechAction.validT _ :: rest => noRecordBeforeWrite w rest

/-- Whether a step records cache metadata. -/
def isRecord : TechAction → Bool
  | TechAction.cacheRecord _ => true
  | TechAction.cacheRecordList _ => true
  | _ => false

/-- Whether a trace records any cache metadata at all. -/
def hasRecord (l : List TechAction) : Bool := l.any isRecord

/-- The wildcard expansion exactly as the specification words it: each
`'*'` element of the requested list expands to the default target list,
or to every currently-registered target name when that default list is
empty; other elements stand for themselves; the final list is
deduplicated keeping only the first occurrence of each name. -/
def dedupFirstSeen : List String → List String
  | [] => []
  | x :: xs => x :: dedupFirstSeen (xs.filter (fun y => !(y == x)))
termination_by l => l.length
decreasing_by
  simp only [List.length_cons]
  exact Nat.lt_succ_of_le (List.length_filter_le _ _)

/-- Spec-side restatement of the resolve-and-expand step, to be compared
with the code's `_resolveTargets`/`_expandTargets`. -/
def expandTargetsSpec (n : Node) (targets defaultTargetList : List String) : List String :=
  dedupFirstSeen
    ((targets.map (fun tn =>
        if tn = "*" then
          (if defaultTargetList = [] then registeredTargetNames n else defaultTargetList)
        else [tn])).flatten)

theorem lookupA_append_none : ∀ {l m : List (String × Target)} {name : String},
    lookupA l name = none → lookupA (l ++ m) name = lookupA m name := by
  intro l
  induction l with
  | nil => intro m name _; rfl
  | cons p rest ih =>
      intro m name h
      obtain ⟨k, v⟩ := p
      simp only [lookupA, List.cons_append] at h ⊢
      by_cases hk : k = name
      · simp [hk] at h
      · simp only [hk, if_false] at h ⊢
        exact ih h

theorem lookupA_updateA : ∀ (l : List (String × Target)) (name : String) (f : Target → Target),
    lookupA (updateA l name f) name = (lookupA l name).map f := by
  intro l
  induction l with
  | nil => intro name f; rfl
  | cons p rest ih =>
      intro name f
      obtain ⟨k, v⟩ := p
      simp only [updateA, lookupA]
      by_cases hk : k = name
      · simp [hk, lookupA]
      · simp only [hk, if_false, lookupA]
        exact ih name f

theorem modifyIdx_getElem {α : Type} : ∀ (l : List α) (i : Nat) (f : α → α),
    (modifyIdx l i f)[i]? = (l[i]?).map f := by
  intro l
  induction l with
  | nil => intro i f; cases i <;> rfl
  | cons x xs ih =>
      intro i f
      cases i with
      | zero => simp [modifyIdx]
      | succ j => simpa [modifyIdx] using ih j f

theorem bySuffixGet_add : ∀ (m : List (String × List FileInfo)) (f : FileInfo) (s : String),
    bySuffixGet (bySuffixAdd m f) s =
      bySuffixGet m s ++ (if f.suffix = s then [f] else []) := by
  intro m
  induction m with
  | nil =>
      intro f s
      simp only [bySuffixAdd, bySuffixGet]
      by_cases h : f.suffix = s <;> simp [h]
  | cons p rest ih =>
      intro f s
      obtain ⟨k, fs⟩ := p
      simp only [bySuffixAdd]
      by_cases h1 : k = f.suffix
      · simp only [h1, if_true, bySuffixGet]
        by_cases h2 : f.suffix = s
        · simp [h2, bySuffixGet]
        · have hks : ¬ (f.suffix = s) := h2
          simp [h2, bySuffixGet, hks]
      · simp only [h1, if_false, bySuffixGet]
        by_cases h2 : k = s
        · have hfs : ¬ (f.suffix = s) := by
            intro hc; exact h1 (h2.trans hc.symm)
          simp [h2, hfs]
        · simp [h2, ih]

theorem bySuffixGet_foldl : ∀ (files : List FileInfo) (m : List (String × List FileInfo)) (s : String),
    bySuffixGet (files.foldl bySuffixAdd m) s =
      bySuffixGet m s ++ files.filter (fun f => f.suffix == s) := by
  intro files
  induction files with
  | nil => intro m s; simp
  | cons f rest ih =>
      intro m s
      simp only [List.foldl_cons, List.filter_cons]
      rw [ih, bySuffixGet_add]
      by_cases h : f.suffix = s
      · simp [h]
      · simp [h]

theorem mkFileList_bySuffix (batches : List (List FileInfo)) (s : String) :
    bySuffixGet (mkFileList batches).bySuffix s =
      batches.flatten.filter (fun f => f.suffix == s) := by
  suffices h : ∀ (bs : List (List FileInfo)) (fl : FileList),
      bySuffixGet (bs.foldl FileList.addFiles fl).bySuffix s =
        bySuffixGet fl.bySuffix s ++ bs.flatten.filter (fun f => f.suffix == s) by
    simpa [mkFileList, emptyFileList, bySuffixGet] using h batches emptyFileList
  intro bs
  induction bs with
  | nil => intro fl; simp
  | cons files rest ih =>
      intro fl
      simp only [List.foldl_cons, List.flatten_cons, List.filter_append]
      rw [ih]
      simp [FileList.addFiles, bySuffixGet_foldl]

/-- C10: for every FileList and suffix `s`, `getBySuffix([s])` returns the
same list as `getBySuffix(s)`; the string form lists exactly the matching
files in the order they were added through `addFiles`; in particular a
suffix with no matching files yields the empty list. -/
theorem c10_getBySuffix_singleton_and_order (batches : List (List FileInfo)) (s : String) :
    (mkFileList batches).getBySuffix (SuffixArg.arr [s]) =
      (mkFileList batches).getBySuffix (SuffixArg.str s) ∧
    (mkFileList batches).getBySuffix (SuffixArg.str s) =
      batches.flatten.filter (fun f => f.suffix == s) ∧
    ((mkFileList batches).getBySuffix (SuffixArg.str s) = [] ↔
      ∀ f ∈ batches.flatten, ¬ (f.suffix = s)) := by
  refine ⟨rfl, ?_, ?_⟩
  · simp [FileList.getBySuffix, mkFileList_bySuffix]
  · simp only [FileList.getBySuffix, mkFileList_bySuffix, List.filter_eq_nil_iff,
      beq_iff_eq, List.mem_flatten]

theorem noRecordBeforeWrite_true : ∀ (l : List TechAction),
    noRecordBeforeWrite true l = true := by
  intro l
  induction l with
  | nil => rfl
  | cons a rest ih =>
      cases a <;> simp [noRecordBeforeWrite, ih]

/-- C8: in both technology build routines the cache metadata records
occur only after a successful write of the rebuilt output (the records
live in the write's `.then` callback), and a trace contains records
exactly when a rebuild was needed and the write succeeded — so neither
the no-rebuild path nor a failed write records anything, leaving the
previously recorded (stale) entries unchanged. -/
theorem c8_cache_recorded_only_after_write (needsMain : Bool) (needsSrc : String → Bool)
    (writeOk : Bool) (target : String) (sources : List String)
    (needsDeps needsBemdecl needsFileList writeOk2 : Bool)
    (levelsTarget bemdeclSource depsTarget : String) :
    noRecordBeforeWrite false
      (bemdeclMergeBuildTrace needsMain needsSrc writeOk target sources) = true ∧
    hasRecord (bemdeclMergeBuildTrace needsMain needsSrc writeOk target sources) =
      ((needsMain || sources.any needsSrc) && writeOk) ∧
    noRecordBeforeWrite false
      (depsBuildTrace needsDeps needsBemdecl needsFileList writeOk2
        levelsTarget bemdeclSource depsTarget) = true ∧
    hasRecord (depsBuildTrace needsDeps needsBemdecl needsFileList writeOk2
        levelsTarget bemdeclSource depsTarget) =
      ((needsDeps || needsBemdecl || needsFileList) && writeOk2) := by
  refine ⟨?_, ?_, ?_, ?_⟩
  · cases hrb : needsMain || sources.any needsSrc <;> cases writeOk <;>
      simp [bemdeclMergeBuildTrace, hrb, noRecordBeforeWrite, noRecordBeforeWrite_true]
  · cases hrb : needsMain || sources.any needsSrc <;> cases writeOk <;>
      simp [bemdeclMergeBuildTrace, hrb, hasRecord, isRecord]
  · cases hrb : needsDeps || needsBemdecl || needsFileList <;> cases writeOk2 <;>
      simp [depsBuildTrace, hrb, noRecordBeforeWrite, noRecordBeforeWrite_true]
  · cases hrb : needsDeps || needsBemdecl || needsFileList <;> cases writeOk2 <;>
      simp [depsBuildTrace, hrb, hasRecord, isRecord]

theorem filter_contains_cons (xs : List String) (seen : List String) (x : String) :
    (xs.filter (fun y => !(seen.contains y))).filter (fun y => !(y == x)) =
      xs.filter (fun y => !((x :: seen).contains y)) := by
  rw [List.filter_filter]
  apply List.filter_congr
  intro a _
  by_cases h1 : a = x <;> by_cases h2 : a ∈ seen <;> simp [h1, h2, List.contains_cons]

theorem uniqAux_eq_dedup : ∀ (l seen : List String),
    uniqAux seen l = dedupFirstSeen (l.filter (fun y => !(seen.contains y))) := by
  intro l
  induction l with
  | nil => intro seen; simp [uniqAux, dedupFirstSeen]
  | cons x xs ih =>
      intro seen
      by_cases h : seen.contains x
      · simp only [uniqAux, h, if_true, List.filter_cons, Bool.not_true]
        simpa using ih seen
      · have hb : seen.contains x = false := by
          simpa using h
        simp only [uniqAux, hb, Bool.false_eq_true, if_false, List.filter_cons,
          Bool.not_false, if_true]
        rw [ih (x :: seen), ← filter_contains_cons]
        simp [dedupFirstSeen]

theorem uniq_eq_dedupFirstSeen (l : List String) : uniq l = dedupFirstSeen l := by
  have h := uniqAux_eq_dedup l []
  simpa [uniq, List.contains_nil] using h

/-- C4: the resolve-and-expand step of the node is exactly the
specification's description: every `'*'` in the requested list expands to
the default target list — or, when that default list is empty, to every
currently-registered target name — and the final list is deduplicated
preserving first-seen order. -/
theorem c4_resolveTargets_matches_spec (n : Node) (targets defaultTargetList : List String) :
    n._resolveTargets (some targets) defaultTargetList =
      expandTargetsSpec n targets defaultTargetList := by
  unfold Node._resolveTargets expandTargetsSpec Node._expandTargets
  rw [uniq_eq_dedupFirstSeen]
  congr 2
  cases defaultTargetList <;> simp

theorem registerTarget_preserves {n n' : Node} {t : String} {i : Nat}
    (h : n._registerTarget t i = Except.ok n') :
    n'.buildCalls = n.buildCalls ∧ n'.techs = n.techs ∧ n'.path = n.path ∧
      n'.targetName = n.targetName ∧ n'.registered = n.registered := by
  cases hl : lookupA n.targetNames t with
  | some tgt =>
      simp only [Node._registerTarget, Node._getTarget, hl] at h
      cases htech : tgt.tech with
      | some j => simp only [htech] at h; cases h
      | none =>
          simp only [htech] at h
          cases h
          simp [setTargetProp]
  | none =>
      simp only [Node._registerTarget, Node._getTarget, hl, freshTarget] at h
      cases h
      simp [setTargetProp]

theorem registerTechTargets_preserves : ∀ (ts : List String) {n n' : Node} {i : Nat},
    registerTechTargets n i ts = Except.ok n' →
    n'.buildCalls = n.buildCalls ∧ n'.techs = n.techs ∧ n'.path = n.path ∧
      n'.targetName = n.targetName ∧ n'.registered = n.registered := by
  intro ts
  induction ts with
  | nil => intro n n' i h; cases h; exact ⟨rfl, rfl, rfl, rfl, rfl⟩
  | cons t rest ih =>
      intro n n' i h
      unfold registerTechTargets at h
      cases hr : n._registerTarget t i with
      | error e => rw [hr] at h; cases h
      | ok n1 =>
          rw [hr] at h
          obtain ⟨h1, h2, h3, h4, h5⟩ := registerTarget_preserves hr
          obtain ⟨g1, g2, g3, g4, g5⟩ := ih h
          exact ⟨g1.trans h1, g2.trans h2, g3.trans h3, g4.trans h4, g5.trans h5⟩

theorem registerAll_preserves : ∀ (ps : List (Nat × Tech)) {n n' : Node},
    registerAll n ps = Except.ok n' →
    n'.buildCalls = n.buildCalls ∧ n'.techs = n.techs ∧ n'.path = n.path ∧
      n'.targetName = n.targetName ∧ n'.registered = n.registered := by
  intro ps
  induction ps with
  | nil => intro n n' h; cases h; exact ⟨rfl, rfl, rfl, rfl, rfl⟩
  | cons p rest ih =>
      intro n n' h
      obtain ⟨i, tech⟩ := p
      unfold registerAll at h
      cases hr : registerTechTargets n i tech.targets with
      | error e => rw [hr] at h; cases h
      | ok n1 =>
          rw [hr] at h
          obtain ⟨h1, h2, h3, h4, h5⟩ := registerTechTargets_preserves _ hr
          obtain ⟨g1, g2, g3, g4, g5⟩ := ih h
          exact ⟨g1.trans h1, g2.trans h2, g3.trans h3, g4.trans h4, g5.trans h5⟩

theorem registerTargets_preserves {n nr : Node}
    (h : n._registerTargets = Except.ok nr) :
    nr.buildCalls = n.buildCalls ∧ nr.techs = n.techs ∧ nr.path = n.path ∧
      nr.targetName = n.targetName := by
  unfold Node._registerTargets at h
  by_cases hreg : n.registered
  · rw [if_pos hreg] at h
    cases h
    exact ⟨rfl, rfl, rfl, rfl⟩
  · rw [if_neg hreg] at h
    cases hr : registerAll n n.techs.enum with
    | error e => rw [hr] at h; cases h
    | ok n1 =>
        rw [hr] at h
        cases h
        obtain ⟨h1, h2, h3, h4, _⟩ := registerAll_preserves _ hr
        exact ⟨h1, h2, h3, h4⟩

/-- C2: binding the first technology to a target name succeeds (and binds
it), while binding any technology to a name that already has a bound
technology throws the configuration error naming the target and both
technologies, synchronously; registration never invokes a build (the
`buildCalls` trace is untouched by a successful `_registerTargets` run,
and a conflict aborts it before `requireSources` can start anything). -/
theorem c2_register_target_conflict (n : Node) (t : String) (i : Nat) :
    (boundTech n t = none →
       ∃ n', n._registerTarget t i = Except.ok n' ∧ boundTech n' t = some i ∧
         n'.buildCalls = n.buildCalls) ∧
    (∀ j, boundTech n t = some j →
       n._registerTarget t i =
         Except.error (conflictMessage t (n.techNameAt j) (n.techNameAt i))) ∧
    (∀ nr, n._registerTargets = Except.ok nr → nr.buildCalls = n.buildCalls) := by
  refine ⟨?_, ?_, fun nr h => (registerTargets_preserves h).1⟩
  · intro hb
    cases hl : lookupA n.targetNames t with
    | some tgt =>
        have htech : tgt.tech = none := by
          simpa [boundTech, Node._getTarget, hl] using hb
        refine ⟨setTargetProp n t (fun tt => { tt with tech := some i }), ?_, ?_, ?_⟩
        · simp [Node._registerTarget, Node._getTarget, hl, htech]
        · simp [boundTech, Node._getTarget, setTargetProp, lookupA_updateA, hl]
        · simp [setTargetProp]
    | none =>
        refine ⟨setTargetProp { n with targetNames := n.targetNames ++ [(t, freshTarget)] } t
          (fun tt => { tt with tech := some i }), ?_, ?_, ?_⟩
        · simp [Node._registerTarget, Node._getTarget, hl, freshTarget]
        · have hlook : lookupA (n.targetNames ++ [(t, freshTarget)]) t = some freshTarget := by
            rw [lookupA_append_none hl]
            simp [lookupA]
          simp [boundTech, Node._getTarget, setTargetProp, lookupA_updateA, hlook]
        · simp [setTargetProp]
  · intro j hb
    cases hl : lookupA n.targetNames t with
    | some tgt =>
        have htech : tgt.tech = some j := by
          simpa [boundTech, Node._getTarget, hl] using hb
        simp [Node._registerTarget, Node._getTarget, hl, htech]
    | none =>
        exfalso
        simp [boundTech, Node._getTarget, hl, freshTarget] at hb

/-- A node with two technologies both declaring the target `a.js` — the
first already bound — and no binding for `b.js`. -/
def conflictNode : Node :=
  { path := "pages/index"
    targetName := "index"
    techs := [{ name := "tech-a", targets := ["a.js"], buildResult := BuildResult.ok, started := false },
              { name := "tech-b", targets := ["a.js"], buildResult := BuildResult.ok, started := false }]
    targetNames := [("a.js", { tech := some 0, started := false, isValid := false,
                               deferred := DefState.pending })]
    targetNamesToBuild := []
    targetNamesToClean := []
    registered := false
    log := []
    buildCalls := [] }

theorem c2_register_target_conflict_witness :
    conflictNode._registerTarget "a.js" 1 =
      Except.error (conflictMessage "a.js" (conflictNode.techNameAt 0)
        (conflictNode.techNameAt 1)) ∧
    (∃ n', conflictNode._registerTarget "b.js" 0 = Except.ok n' ∧
       boundTech n' "b.js" = some 0 ∧ n'.buildCalls = conflictNode.buildCalls) :=
  ⟨(c2_register_target_conflict conflictNode "a.js" 1).2.1 0 (by decide),
   (c2_register_target_conflict conflictNode "b.js" 0).1 (by decide)⟩

/-- C3: requiring a target name that no technology owns yields a
rejected outcome carrying the target-not-found message for that name,
invokes no technology build routine (the `buildCalls` trace is
unchanged), and leaves the name unowned. -/
theorem c3_requireSources_target_not_found (n : Node) (t : String)
    (hr : n.registered = true) (hu : n.unmaskTargetName t = t)
    (hb : boundTech n t = none) :
    ∃ n', n.requireSources [t] =
        Except.ok (n', [Outcome.rejectedNotFound (targetNotFoundMessage n.path t)]) ∧
      n'.buildCalls = n.buildCalls ∧ boundTech n' t = none := by
  have hreg : n._registerTargets = Except.ok n := by
    simp [Node._registerTargets, hr]
  cases hl : lookupA n.targetNames t with
  | some tgt =>
      have htech : tgt.tech = none := by
        simpa [boundTech, Node._getTarget, hl] using hb
      refine ⟨n, ?_, rfl, hb⟩
      simp [Node.requireSources, hreg, requireList, Node._requireSource, hu,
        Node._getTarget, hl, htech]
  | none =>
      refine ⟨{ n with targetNames := n.targetNames ++ [(t, freshTarget)] }, ?_, rfl, ?_⟩
      · simp [Node.requireSources, hreg, requireList, Node._requireSource, hu,
          Node._getTarget, hl, freshTarget]
      · have hlook : lookupA (n.targetNames ++ [(t, freshTarget)]) t = some freshTarget := by
          rw [lookupA_append_none hl]
          simp [lookupA]
        simp only [boundTech, Node._getTarget, hlook]
        simp [freshTarget]

/-- A node with no technologies at all, registration already run. -/
def lonelyNode : Node :=
  { path := "pages/index"
    targetName := "index"
    techs := []
    targetNames := []
    targetNamesToBuild := []
    targetNamesToClean := []
    registered := true
    log := []
    buildCalls := [] }

theorem c3_requireSources_target_not_found_witness :
    ∃ n', lonelyNode.requireSources ["a.js"] =
        Except.ok (n', [Outcome.rejectedNotFound
          (targetNotFoundMessage lonelyNode.path "a.js")]) ∧
      n'.buildCalls = lonelyNode.buildCalls ∧ boundTech n' "a.js" = none :=
  c3_requireSources_target_not_found lonelyNode "a.js" (by decide) (by decide) (by decide)

/-- C9: settling a name that was never registered or requested raises no
error — `resolveTarget`/`rejectTarget` silently create a fresh entry with
no bound technology and settle its deferred — and a later
`requireSources([name])` still yields the target-not-found rejection and
invokes no build. -/
theorem c9_settle_unknown_target (n : Node) (name v e : String)
    (hr : n.registered = true) (hu : n.unmaskTargetName name = name)
    (hl : lookupA n.targetNames name = none) :
    lookupA (n.resolveTarget name v).targetNames name =
        some { tech := none, started := false, isValid := false,
               deferred := DefState.resolved v } ∧
    lookupA (n.rejectTarget name e).targetNames name =
        some { tech := none, started := false, isValid := false,
               deferred := DefState.rejected e } ∧
    (n.resolveTarget name v).requireSources [name] =
        Except.ok (n.resolveTarget name v,
          [Outcome.rejectedNotFound (targetNotFoundMessage n.path name)]) ∧
    (n.resolveTarget name v).buildCalls = n.buildCalls := by
  have hfresh : lookupA (n.targetNames ++ [(name, freshTarget)]) name = some freshTarget := by
    rw [lookupA_append_none hl]
    simp [lookupA]
  have hres : n.resolveTarget name v =
      { n with targetNames := updateA (n.targetNames ++ [(name, freshTarget)]) name
                 (fun t => { t with deferred := t.deferred.resolve v }),
               log := n.log ++ [LogEvent.rebuild name none] } := by
    simp [Node.resolveTarget, Node._getTarget, hl, setTargetProp, freshTarget,
      Node.techNameOfTarget]
  have hrej : n.rejectTarget name e =
      { n with targetNames := updateA (n.targetNames ++ [(name, freshTarget)]) name
                 (fun t => { t with deferred := t.deferred.reject e }),
               log := n.log ++ [LogEvent.failed name none] } := by
    simp [Node.rejectTarget, Node._getTarget, hl, setTargetProp, freshTarget,
      Node.techNameOfTarget]
  have hlook2 : lookupA (updateA (n.targetNames ++ [(name, freshTarget)]) name
      (fun t => { t with deferred := t.deferred.resolve v })) name =
      some { tech := none, started := false, isValid := false,
             deferred := DefState.resolved v } := by
    rw [lookupA_updateA, hfresh]
    simp [freshTarget, DefState.resolve]
  refine ⟨?_, ?_, ?_, ?_⟩
  · rw [hres]
    exact hlook2
  · rw [hrej]
    rw [lookupA_updateA, hfresh]
    simp [freshTarget, DefState.reject]
  · rw [hres]
    have hu' : replaceQ n.targetName name = name := hu
    simp [Node.requireSources, Node._registerTargets, hr, requireList,
      Node._requireSource, Node.unmaskTargetName, hu', Node._getTarget, hlook2]
  · rw [hres]

theorem c9_settle_unknown_target_witness :
    lookupA (lonelyNode.resolveTarget "b.js" "v").targetNames "b.js" =
        some { tech := none, started := false, isValid := false,
               deferred := DefState.resolved "v" } ∧
    lookupA (lonelyNode.rejectTarget "b.js" "boom").targetNames "b.js" =
        some { tech := none, started := false, isValid := false,
               deferred := DefState.rejected "boom" } ∧
    (lonelyNode.resolveTarget "b.js" "v").requireSources ["b.js"] =
        Except.ok (lonelyNode.resolveTarget "b.js" "v",
          [Outcome.rejectedNotFound (targetNotFoundMessage lonelyNode.path "b.js")]) ∧
    (lonelyNode.resolveTarget "b.js" "v").buildCalls = lonelyNode.buildCalls :=
  c9_settle_unknown_target lonelyNode "b.js" "v" "boom" (by decide) (by decide) (by decide)

/-- C6: `isValidTarget` marks the target valid and records the cache-hit
log event; `resolveTarget` logs a `rebuild` action exactly when the
target was not marked valid — so after `isValidTarget` no rebuild is
logged — and it still settles the target's deferred. -/
theorem c6_markValid_excludes_rebuild (n : Node) (t : String) (v : String) :
    ((n.isValidTarget t)._getTarget t).2.isValid = true ∧
    (n.isValidTarget t).log =
      n.log ++ [LogEvent.isValid t (n.techNameOfTarget (n._getTarget t).2)] ∧
    (n.resolveTarget t v).log =
      (if (n._getTarget t).2.isValid then n.log
       else n.log ++ [LogEvent.rebuild t (n.techNameOfTarget (n._getTarget t).2)]) ∧
    ((n.isValidTarget t).resolveTarget t v).log = (n.isValidTarget t).log ∧
    (((n.isValidTarget t).resolveTarget t v)._getTarget t).2.deferred =
      ((n._getTarget t).2.deferred).resolve v := by
  cases hl : lookupA n.targetNames t with
  | some tgt =>
      have hmark : n.isValidTarget t =
          { n with targetNames := updateA n.targetNames t (fun tt => { tt with isValid := true }),
                   log := n.log ++ [LogEvent.isValid t (n.techNameOfTarget tgt)] } := by
        simp [Node.isValidTarget, Node._getTarget, hl, setTargetProp]
      have hmlook : lookupA (n.isValidTarget t).targetNames t =
          some { tgt with isValid := true } := by
        rw [hmark]
        simp [lookupA_updateA, hl]
      have hstep : (n.isValidTarget t).resolveTarget t v =
          setTargetProp (n.isValidTarget t) t
            (fun tt => { tt with deferred := tt.deferred.resolve v }) := by
        rw [Node.resolveTarget]
        simp only [Node._getTarget, hmlook]
        simp
      have hlook3 : lookupA (setTargetProp (n.isValidTarget t) t
          (fun tt => { tt with deferred := tt.deferred.resolve v })).targetNames t =
          some { tgt with isValid := true, deferred := tgt.deferred.resolve v } := by
        simp only [setTargetProp, lookupA_updateA, hmlook]
        rfl
      refine ⟨?_, ?_, ?_, ?_, ?_⟩
      · simp [Node._getTarget, hmlook]
      · rw [hmark]
        simp [Node._getTarget, hl]
      · simp [Node.resolveTarget, Node._getTarget, hl, setTargetProp]
        by_cases hv : tgt.isValid <;> simp [hv]
      · rw [hstep]
        simp [setTargetProp]
      · rw [hstep]
        simp [Node._getTarget, hlook3, hl]
  | none =>
      have hfresh : lookupA (n.targetNames ++ [(t, freshTarget)]) t = some freshTarget := by
        rw [lookupA_append_none hl]
        simp [lookupA]
      have hmark : n.isValidTarget t =
          { n with targetNames := updateA (n.targetNames ++ [(t, freshTarget)]) t
                     (fun tt => { tt with isValid := true }),
                   log := n.log ++ [LogEvent.isValid t none] } := by
        simp [Node.isValidTarget, Node._getTarget, hl, setTargetProp, freshTarget,
          Node.techNameOfTarget]
      have hmlook : lookupA (n.isValidTarget t).targetNames t =
          some { tech := none, started := false, isValid := true,
                 deferred := DefState.pending } := by
        rw [hmark]
        simp only [lookupA_updateA, hfresh]
        simp [freshTarget]
      have hstep : (n.isValidTarget t).resolveTarget t v =
          setTargetProp (n.isValidTarget t) t
            (fun tt => { tt with deferred := tt.deferred.resolve v }) := by
        rw [Node.resolveTarget]
        simp only [Node._getTarget, hmlook]
        simp
      have hlook3 : lookupA (setTargetProp (n.isValidTarget t) t
          (fun tt => { tt with deferred := tt.deferred.resolve v })).targetNames t =
          some { tech := none, started := false, isValid := true,
                 deferred := DefState.pending.resolve v } := by
        simp only [setTargetProp, lookupA_updateA, hmlook]
        rfl
      refine ⟨?_, ?_, ?_, ?_, ?_⟩
      · simp [Node._getTarget, hmlook]
      · rw [hmark]
        simp [Node._getTarget, hl, freshTarget, Node.techNameOfTarget]
      · simp [Node.resolveTarget, Node._getTarget, hl, setTargetProp, freshTarget,
          Node.techNameOfTarget]
      · rw [hstep]
        simp [setTargetProp]
      · rw [hstep]
        simp [Node._getTarget, hlook3, hl, freshTarget]

/-- C7: when `build(targets)` returns and every requested target settled
successfully, the result's `builtTargets` field is exactly the expanded,
deduplicated requested target list, each name qualified by the node
path, in order. -/
theorem c7_build_builtTargets (n : Node) (targets : Option (List String))
    (n1 : Node) (outs : List Outcome) (built : List String)
    (hb : n.build targets = Except.ok (n1, outs, built))
    (hs : ∀ o ∈ outs, Outcome.succeeded n1 o = true) :
    built = (n._resolveTargets targets n.targetNamesToBuild).map
      (fun target => pathJoin n.path target) := by
  simp only [Node.build] at hb
  cases hreq : n.requireSources (n._resolveTargets targets n.targetNamesToBuild) with
  | error e => rw [hreq] at hb; cases hb
  | ok p =>
      obtain ⟨n2, outs2⟩ := p
      rw [hreq] at hb
      cases hb
      rfl

/-- A node whose single target is owned by its technology and has already
been built and resolved. -/
def settledNode : Node :=
  { path := "pages/index"
    targetName := "index"
    techs := [{ name := "tech-a", targets := ["a.js"], buildResult := BuildResult.ok, started := true }]
    targetNames := [("a.js", { tech := some 0, started := true, isValid := false,
                               deferred := DefState.resolved "v" })]
    targetNamesToBuild := []
    targetNamesToClean := []
    registered := true
    log := []
    buildCalls := [0] }

theorem c7_build_builtTargets_witness :
    ["pages/index/a.js"] =
      (settledNode._resolveTargets (some ["a.js"]) settledNode.targetNamesToBuild).map
        (fun target => pathJoin settledNode.path target) :=
  c7_build_builtTargets settledNode (some ["a.js"]) settledNode
    [Outcome.targetPromise "a.js"] ["pages/index/a.js"] (by rfl) (by decide)

theorem requireSourcesRepeat_fixed {n : Node} {ss : List String} {os : List Outcome}
    (h : n.requireSources ss = Except.ok (n, os)) :
    ∀ k, requireSourcesRepeat n ss k = Except.ok (n, os) := by
  intro k
  induction k with
  | zero => exact h
  | succ k ih => simp [requireSourcesRepeat, h, ih]

/-- C1: requiring a target owned by a registered technology any positive
number of times invokes that technology's `build()` exactly once: the
first call appends the single invocation to the `buildCalls` trace and
sets both the target's `started` flag and the technology's `__started`
flag, and every call — first and repeated — returns the same target
future, so all callers observe the same settled outcome. -/
theorem c1_requireSources_builds_once (n : Node) (t : String) (i : Nat)
    (tgt : Target) (tech : Tech)
    (hr : n.registered = true) (hu : n.unmaskTargetName t = t)
    (hl : lookupA n.targetNames t = some tgt) (htech : tgt.tech = some i)
    (hstarted : tgt.started = false)
    (hti : n.techs[i]? = some tech) (hts : tech.started = false)
    (hb : tech.buildResult = BuildResult.ok) :
    ∃ n1, n.requireSources [t] = Except.ok (n1, [Outcome.targetPromise t]) ∧
      n1.buildCalls = n.buildCalls ++ [i] ∧
      lookupA n1.targetNames t = some { tgt with started := true } ∧
      n1.techs[i]? = some { tech with started := true } ∧
      (∀ k, requireSourcesRepeat n [t] k = Except.ok (n1, [Outcome.targetPromise t])) := by
  have hu' : replaceQ n.targetName t = t := hu
  have hreq : n.requireSources [t] = Except.ok ({ n with
      targetNames := updateA n.targetNames t (fun tt => { tt with started := true }),
      techs := modifyIdx n.techs i (fun tc => { tc with started := true }),
      buildCalls := n.buildCalls ++ [i] }, [Outcome.targetPromise t]) := by
    simp only [Node.requireSources, Node._registerTargets, hr, if_true, requireList,
      Node._requireSource, Node.unmaskTargetName, hu', Node._getTarget, hl, htech,
      hstarted, Bool.false_eq_true, if_false, setTargetProp, Node.techStartedAt,
      Node.setTechStarted, Node.buildResultAt, modifyIdx_getElem, hti, hts, hb]
    simp [hts, hb]
  have hlook1 : lookupA (updateA n.targetNames t (fun tt => { tt with started := true })) t
      = some { tgt with started := true } := by
    rw [lookupA_updateA, hl]
    rfl
  have hti1 : (modifyIdx n.techs i (fun tc => { tc with started := true }))[i]?
      = some { tech with started := true } := by
    rw [modifyIdx_getElem, hti]
    rfl
  have hidem : ({ n with
      targetNames := updateA n.targetNames t (fun tt => { tt with started := true }),
      techs := modifyIdx n.techs i (fun tc => { tc with started := true }),
      buildCalls := n.buildCalls ++ [i] } : Node).requireSources [t] =
      Except.ok ({ n with
        targetNames := updateA n.targetNames t (fun tt => { tt with started := true }),
        techs := modifyIdx n.techs i (fun tc => { tc with started := true }),
        buildCalls := n.buildCalls ++ [i] }, [Outcome.targetPromise t]) := by
    simp only [Node.requireSources, Node._registerTargets, hr, if_true, requireList,
      Node._requireSource, Node.unmaskTargetName, hu', Node._getTarget, hlook1, htech]
  refine ⟨_, hreq, rfl, hlook1, hti1, ?_⟩
  intro k
  cases k with
  | zero => exact hreq
  | succ k =>
      simp only [requireSourcesRepeat, hreq]
      exact requireSourcesRepeat_fixed hidem k

/-- A node whose single target is owned by its technology, with nothing
started yet. -/
def freshBuildNode : Node :=
  { path := "pages/index"
    targetName := "index"
    techs := [{ name := "tech-a", targets := ["a.js"], buildResult := BuildResult.ok, started := false }]
    targetNames := [("a.js", { tech := some 0, started := false, isValid := false,
                               deferred := DefState.pending })]
    targetNamesToBuild := []
    targetNamesToClean := []
    registered := true
    log := []
    buildCalls := [] }

theorem c1_requireSources_builds_once_witness :
    ∃ n1, freshBuildNode.requireSources ["a.js"] =
        Except.ok (n1, [Outcome.targetPromise "a.js"]) ∧
      n1.buildCalls = freshBuildNode.buildCalls ++ [0] ∧
      lookupA n1.targetNames "a.js" =
        some { tech := some 0, started := true, isValid := false,
               deferred := DefState.pending } ∧
      n1.techs[0]? = some { name := "tech-a", targets := ["a.js"],
                            buildResult := BuildResult.ok, started := true } ∧
      (∀ k, requireSourcesRepeat freshBuildNode ["a.js"] k =
        Except.ok (n1, [Outcome.targetPromise "a.js"])) :=
  c1_requireSources_builds_once freshBuildNode "a.js" 0
    { tech := some 0, started := false, isValid := false, deferred := DefState.pending }
    { name := "tech-a", targets := ["a.js"], buildResult := BuildResult.ok, started := false }
    (by decide) (by decide) (by decide) (by decide) (by decide) (by decide) (by decide)
    (by decide)

/-- C5: when the owning technology's `build()` throws synchronously, the
exception is caught at the call site and converted into a rejection of
the requested target's future — `requireSources` itself still returns
normally (`Except.ok`), the target's deferred is rejected with the thrown
error, the `failed` log action is emitted — and every further call
returns the very same (now rejected) target future, so the rejection
reaches every transitive waiter. -/
theorem c5_sync_throw_rejects_target (n : Node) (t : String) (i : Nat)
    (tgt : Target) (tech : Tech) (err : String)
    (hr : n.registered = true) (hu : n.unmaskTargetName t = t)
    (hl : lookupA n.targetNames t = some tgt) (htech : tgt.tech = some i)
    (hstarted : tgt.started = false) (hdef : tgt.deferred = DefState.pending)
    (hti : n.techs[i]? = some tech) (hts : tech.started = false)
    (hb : tech.buildResult = BuildResult.throws err) :
    ∃ n1, n.requireSources [t] = Except.ok (n1, [Outcome.targetPromise t]) ∧
      n1.buildCalls = n.buildCalls ++ [i] ∧
      lookupA n1.targetNames t =
        some { tgt with started := true, deferred := DefState.rejected err } ∧
      n1.log = n.log ++ [LogEvent.failed t (some tech.name)] ∧
      (∀ k, requireSourcesRepeat n [t] k = Except.ok (n1, [Outcome.targetPromise t])) := by
  have hu' : replaceQ n.targetName t = t := hu
  have hlook1 : lookupA (updateA n.targetNames t (fun tt => { tt with started := true })) t
      = some { tgt with started := true } := by
    rw [lookupA_updateA, hl]
    rfl
  have hti1 : (modifyIdx n.techs i (fun tc => { tc with started := true }))[i]?
      = some { tech with started := true } := by
    rw [modifyIdx_getElem, hti]
    rfl
  have hlook2 : lookupA (updateA (updateA n.targetNames t (fun tt => { tt with started := true })) t
      (fun tt => { tt with deferred := tt.deferred.reject err })) t
      = some { tgt with started := true, deferred := DefState.rejected err } := by
    rw [lookupA_updateA, hlook1]
    simp [hdef, DefState.reject]
  have hreq : n.requireSources [t] = Except.ok ({ n with
      targetNames := updateA (updateA n.targetNames t (fun tt => { tt with started := true })) t
        (fun tt => { tt with deferred := tt.deferred.reject err }),
      techs := modifyIdx n.techs i (fun tc => { tc with started := true }),
      log := n.log ++ [LogEvent.failed t (some tech.name)],
      buildCalls := n.buildCalls ++ [i] }, [Outcome.targetPromise t]) := by
    simp only [Node.requireSources, Node._registerTargets, hr, if_true, requireList,
      Node._requireSource, Node.unmaskTargetName, hu', Node._getTarget, hl, htech,
      hstarted, Bool.false_eq_true, if_false, setTargetProp, Node.techStartedAt,
      Node.setTechStarted, Node.buildResultAt, modifyIdx_getElem, hti, hts, hb,
      Node.rejectTarget, Node.techNameOfTarget, hlook1]
    simp [hts, hb, Node.rejectTarget, Node._getTarget, hlook1, setTargetProp,
      Node.techNameOfTarget, htech, hti1]
  have hidem : ({ n with
      targetNames := updateA (updateA n.targetNames t (fun tt => { tt with started := true })) t
        (fun tt => { tt with deferred := tt.deferred.reject err }),
      techs := modifyIdx n.techs i (fun tc => { tc with started := true }),
      log := n.log ++ [LogEvent.failed t (some tech.name)],
      buildCalls := n.buildCalls ++ [i] } : Node).requireSources [t] =
      Except.ok ({ n with
        targetNames := updateA (updateA n.targetNames t (fun tt => { tt with started := true })) t
          (fun tt => { tt with deferred := tt.deferred.reject err }),
        techs := modifyIdx n.techs i (fun tc => { tc with started := true }),
        log := n.log ++ [LogEvent.failed t (some tech.name)],
        buildCalls := n.buildCalls ++ [i] }, [Outcome.targetPromise t]) := by
    simp only [Node.requireSources, Node._registerTargets, hr, if_true, requireList,
      Node._requireSource, Node.unmaskTargetName, hu', Node._getTarget, hlook2, htech]
  refine ⟨_, hreq, rfl, hlook2, rfl, ?_⟩
  intro k
  cases k with
  | zero => exact hreq
  | succ k =>
      simp only [requireSourcesRepeat, hreq]
      exact requireSourcesRepeat_fixed hidem k

/-- A node whose single target is owned by a technology whose `build()`
throws synchronously. -/
def throwingNode : Node :=
  { path := "pages/index"
    targetName := "index"
    techs := [{ name := "tech-a", targets := ["a.js"],
                buildResult := BuildResult.throws "boom", started := false }]
    targetNames := [("a.js", { tech := some 0, started := false, isValid := false,
                               deferred := DefState.pending })]
    targetNamesToBuild := []
    targetNamesToClean := []
    registered := true
    log := []
    buildCalls := [] }

theorem c5_sync_throw_rejects_target_witness :
    ∃ n1, throwingNode.requireSources ["a.js"] =
        Except.ok (n1, [Outcome.targetPromise "a.js"]) ∧
      n1.buildCalls = throwingNode.buildCalls ++ [0] ∧
      lookupA n1.targetNames "a.js" =
        some { tech := some 0, started := true, isValid := false,
               deferred := DefState.rejected "boom" } ∧
      n1.log = throwingNode.log ++ [LogEvent.failed "a.js" (some "tech-a")] ∧
      (∀ k, requireSourcesRepeat throwingNode ["a.js"] k =
        Except.ok (n1, [Outcome.targetPromise "a.js"])) :=
  c5_sync_throw_rejects_target throwingNode "a.js" 0
    { tech := some 0, started := false, isValid := false, deferred := DefState.pending }
    { name := "tech-a", targets := ["a.js"], buildResult := BuildResult.throws "boom",
      started := false }
    "boom" (by decide) (by decide) (by decide) (by decide) (by decide) (by decide)
    (by decide) (by decide) (by decide)
